import Mathlib

/-!
# Verification of the `cumaea` prompting crate

A shallow embedding of `src/lib.rs` of the `cumaea` crate: two terminal
prompting operations, `prompt_tf_default` (a yes/no prompt that loops until
the input is valid) and `prompt_selection` (a single-shot selection prompt
with a default).

Modelling choices:
* Terminal I/O is made explicit.  The output side is a trace of events
  (`Event`): writing a sequence of text segments, flushing, and reading a
  line.  A written segment is either plain text or text styled with one of
  the `colored`-crate stylings (`Segment`); rendering a styled segment to
  the actual ANSI byte sequence the `colored` crate emits is `renderSeg`.
* The input side of the world is a list of read outcomes: `some line` is a
  successful `read_line` returning `line` (the trailing newline already
  stripped — it is whitespace and is removed by the `trim` the code applies
  to every read), `none` is a failed `read_line`.  When the list is
  exhausted, further reads see end-of-file, which Rust's `read_line`
  reports as success appending nothing, i.e. the empty line.
* Each `flush` consumes the head of a list of `Bool` outcomes (`false` =
  failure); an exhausted list means flushes succeed.
* The two `expect` calls panic; a panic is modelled as `Except.error` with
  the corresponding `PanicMsg`.
* Rust's `str::trim` and `str::eq_ignore_ascii_case` are re-implemented
  here on `String.data` by structural recursion so that they compute by
  kernel reduction (`Cumaea.trim`, `Cumaea.eq_ignore_ascii_case`).
-/

namespace Cumaea

/-- An enum that represents colors from the `colored` crate (lines 11-20). -/
inductive ChoiceColor
  | Black
  | Red
  | Green
  | Yellow
  | Blue
  | Magenta
  | Cyan
  | White
deriving DecidableEq

/-- An enum that represents stylings from the `colored` crate (lines 23-28). -/
inductive Choice
  | Normal (c : ChoiceColor)
  | On (c : ChoiceColor)
  | Bright (c : ChoiceColor)
  | OnBright (c : ChoiceColor)
deriving DecidableEq

/-- The Unicode code points with property `White_Space`: these are exactly
the characters Rust's `char::is_whitespace`, and hence `str::trim`,
recognizes as whitespace. -/
def rustWhitespace : List Char :=
  ['\t', '\n', '\u000B', '\u000C', '\r', ' ', '\u0085', '\u00A0', '\u1680',
   '\u2000', '\u2001', '\u2002', '\u2003', '\u2004', '\u2005', '\u2006',
   '\u2007', '\u2008', '\u2009', '\u200A', '\u2028', '\u2029', '\u202F',
   '\u205F', '\u3000']

/-- Rust `char::is_whitespace`. -/
def isRustWhitespace (c : Char) : Bool :=
  rustWhitespace.contains c

/-- Rust `str::trim`: the string with leading and trailing whitespace
removed. -/
def trim (s : String) : String :=
  ⟨((s.data.dropWhile isRustWhitespace).reverse.dropWhile isRustWhitespace).reverse⟩

/-- Rust `u8::to_ascii_lowercase`, lifted to `Char`: maps `'A'..='Z'`
(code points 65-90) to the corresponding lowercase letter and leaves every
other character unchanged. -/
def asciiLower (c : Char) : Char :=
  if 65 ≤ c.toNat ∧ c.toNat ≤ 90 then Char.ofNat (c.toNat + 32) else c

/-- Rust `str::eq_ignore_ascii_case`: equality after ASCII-lowercasing
both sides. -/
def eq_ignore_ascii_case (a b : String) : Bool :=
  a.data.map asciiLower == b.data.map asciiLower

deriving instance DecidableEq for Except

/-- A piece of text as written to the terminal: either plain, or styled
with a `colored`-crate styling. -/
inductive Segment
  | plain (s : String)
  | styled (s : String) (c : Choice)
deriving DecidableEq

/-- An observable terminal-I/O event: a `print!` of some segments, a
`stdout().flush()`, or a `read_line` that obtained `line`. -/
inductive Event
  | write (segs : List Segment)
  | flush
  | read (line : String)
deriving DecidableEq

/-- The two panic sites of the crate: `expect("Flushing line failed.")`
and `expect("Failed to read line.")`. -/
inductive PanicMsg
  | flushFailed
  | readFailed
deriving DecidableEq

/-- The ANSI SGR parameter the `colored` crate uses for each base color
(foreground, normal intensity): 30-37. -/
def colorBase : ChoiceColor → Nat
  | .Black => 0
  | .Red => 1
  | .Green => 2
  | .Yellow => 3
  | .Blue => 4
  | .Magenta => 5
  | .Cyan => 6
  | .White => 7

/-- The ANSI SGR parameter for a full styling: foreground 30-37,
background (`on_*`) 40-47, bright foreground 90-97, bright background
(`on_bright_*`) 100-107. -/
def styleCode : Choice → Nat
  | .Normal c => 30 + colorBase c
  | .On c => 40 + colorBase c
  | .Bright c => 90 + colorBase c
  | .OnBright c => 100 + colorBase c

/-- Render one segment to the bytes actually printed: a styled segment is
wrapped in the ANSI escape the `colored` crate emits, a plain one is the
text itself. -/
def renderSeg : Segment → String
  | .plain s => s
  | .styled s c => "\x1b[" ++ toString (styleCode c) ++ "m" ++ s ++ "\x1b[0m"

/-- Render a list of segments to the printed byte string. -/
def renderSegs : List Segment → String
  | [] => ""
  | s :: t => renderSeg s ++ renderSegs t

/-- The segments written by one iteration of `prompt_tf_default`'s prompt
rendering (lines 53-99).  When a styling is supplied, every one of the 32
branches of the nested match prints the entire prompt styled with exactly
that variant and color (`print!("{}", prompt.to_string().<method>())`);
when it is absent, the branch at line 97 prints the trimmed prompt
unstyled (`print!("{}", prompt.trim())`). -/
def renderBoolPrompt (prompt : String) (colored : Option Choice) : List Segment :=
  match colored with
  | some choice => [Segment.styled prompt choice]
  | none => [Segment.plain (trim prompt)]

/-- The segments written by `prompt_selection` (lines 153-307).  With a
styling, every one of the 32 branches is
`print!("{}: [{}]: ", prompt, list.to_string().<method>())`: the prompt
and the punctuation are plain, only the list is styled.  Without one, the
branch at line 305 is `print!("{}: [{}]: ", prompt.trim(), list.trim())`. -/
def renderSelectionPrompt (prompt list : String) (colored : Option Choice) :
    List Segment :=
  match colored with
  | some choice =>
      [Segment.plain (prompt ++ ": ["), Segment.styled list choice,
       Segment.plain "]: "]
  | none =>
      [Segment.plain (trim prompt ++ ": [" ++ trim list ++ "]: ")]

/-- The loop guard at line 107: the (already trimmed) input is accepted
when it equals `"y"` or `"n"` ignoring ASCII case, or is empty. -/
def tfAccept (s : String) : Bool :=
  eq_ignore_ascii_case s "y" || eq_ignore_ascii_case s "n" || s.data.isEmpty

/-- The final match of `prompt_tf_default` (lines 113-117):
`"Y" | "y" => true`, `"N" | "n" => false`, `_ => default`, written here as
the equivalent chain of equality tests. -/
def tfFinalMatch (input : String) (default : Bool) : Bool :=
  if input = "Y" ∨ input = "y" then true
  else if input = "N" ∨ input = "n" then false
  else default

/-- The `loop { ... }` of `prompt_tf_default` (lines 52-110): each
iteration prints the prompt, flushes, reads a line, trims it, and exits
the loop when `tfAccept` holds, otherwise repeats.  Returns the event
trace together with either the accepted trimmed input or the panic.  An
exhausted read list is end-of-file: `read_line` succeeds appending
nothing, so the iteration sees the empty line and exits the loop. -/
def tfLoop (prompt : String) (colored : Option Choice)
    (flushes : List Bool) (reads : List (Option String)) :
    List Event × Except PanicMsg String :=
  let wr := Event.write (renderBoolPrompt prompt colored)
  match flushes with
  | false :: _ => ([wr], Except.error PanicMsg.flushFailed)
  | _ =>
    match reads with
    | [] => ([wr, Event.flush, Event.read ""], Except.ok "")
    | none :: _ => ([wr, Event.flush], Except.error PanicMsg.readFailed)
    | some line :: rest =>
      if tfAccept (trim line) then
        ([wr, Event.flush, Event.read line], Except.ok (trim line))
      else
        let r := tfLoop prompt colored flushes.tail rest
        ([wr, Event.flush, Event.read line] ++ r.1, r.2)

/-- `prompt_tf_default` (lines 50-118): run the loop, then apply the final
match to the accepted trimmed input. -/
def prompt_tf_default (prompt : String) (colored : Option Choice)
    (default : Bool) (flushes : List Bool) (reads : List (Option String)) :
    List Event × Except PanicMsg Bool :=
  let r := tfLoop prompt colored flushes reads
  (r.1, r.2.map fun input => tfFinalMatch input default)

/-- `prompt_selection` (lines 146-320): print the composed prompt line,
flush, read exactly one line; return the default if the trimmed input is
empty, the trimmed input otherwise. -/
def prompt_selection (prompt list : String) (colored : Option Choice)
    (default : String) (flushes : List Bool) (reads : List (Option String)) :
    List Event × Except PanicMsg String :=
  let wr := Event.write (renderSelectionPrompt prompt list colored)
  match flushes with
  | false :: _ => ([wr], Except.error PanicMsg.flushFailed)
  | _ =>
    match reads with
    | [] =>
        ([wr, Event.flush, Event.read ""], Except.ok default)
    | none :: _ => ([wr, Event.flush], Except.error PanicMsg.readFailed)
    | some line :: _ =>
        ([wr, Event.flush, Event.read line],
         Except.ok (if (trim line).data.isEmpty then default else trim line))

/-- The lines obtained by the read events of a trace, in order. -/
def readLines : List Event → List String
  | [] => []
  | Event.read l :: t => l :: readLines t
  | _ :: t => readLines t

/-- The number of read events of a trace. -/
def countReads (t : List Event) : Nat :=
  (readLines t).length

/-- The number of write events of a trace (prompt renderings). -/
def countWrites : List Event → Nat
  | [] => 0
  | Event.write _ :: t => countWrites t + 1
  | _ :: t => countWrites t

/-- The trace of a run of `prompt_tf_default` that consumes the lines
`ls`: one write-flush-read block per consumed line. -/
def tfTrace (prompt : String) (colored : Option Choice) (ls : List String) :
    List Event :=
  ls.flatMap fun l =>
    [Event.write (renderBoolPrompt prompt colored), Event.flush, Event.read l]

/-- A trace is well-formed when it is a sequence of write-flush-read
blocks, possibly ending in a write or a write-flush cut short by a
failure: in particular every read is directly preceded by a flush which is
directly preceded by a write. -/
def wfTrace : List Event → Bool
  | [] => true
  | [Event.write _] => true
  | [Event.write _, Event.flush] => true
  | Event.write _ :: Event.flush :: Event.read _ :: t => wfTrace t
  | _ => false

/-! ## Helper lemmas -/

theorem char_toNat_inj {c d : Char} (h : c.toNat = d.toNat) : c = d :=
  Char.ext (UInt32.ext h)

theorem asciiLower_eq_y {c : Char} (h : asciiLower c = 'y') :
    c = 'y' ∨ c = 'Y' := by
  unfold asciiLower at h
  by_cases hu : 65 ≤ c.toNat ∧ c.toNat ≤ 90
  · rw [if_pos hu] at h
    obtain ⟨h1, h2⟩ := hu
    set n := c.toNat with hn
    have hy : ('Y').toNat = 89 := rfl
    interval_cases n <;> first
      | (exfalso; exact absurd h (by decide))
      | (right; apply char_toNat_inj; omega)
  · rw [if_neg hu] at h
    left; exact h

theorem asciiLower_eq_n {c : Char} (h : asciiLower c = 'n') :
    c = 'n' ∨ c = 'N' := by
  unfold asciiLower at h
  by_cases hu : 65 ≤ c.toNat ∧ c.toNat ≤ 90
  · rw [if_pos hu] at h
    obtain ⟨h1, h2⟩ := hu
    set n := c.toNat with hn
    have hy : ('N').toNat = 78 := rfl
    interval_cases n <;> first
      | (exfalso; exact absurd h (by decide))
      | (right; apply char_toNat_inj; omega)
  · rw [if_neg hu] at h
    left; exact h

theorem eq_ignore_y {s : String} (h : eq_ignore_ascii_case s "y" = true) :
    s = "y" ∨ s = "Y" := by
  unfold eq_ignore_ascii_case at h
  have h' : s.data.map asciiLower = ['y'] := by
    have h2 := eq_of_beq h
    rw [h2]; decide
  match hd : s.data with
  | [] => rw [hd] at h'; simp at h'
  | c :: c2 :: t2 => rw [hd] at h'; simp at h'
  | [c] =>
    rw [hd] at h'
    simp only [List.map_cons, List.map_nil, List.cons.injEq, and_true] at h'
    rcases asciiLower_eq_y h' with h1 | h1
    · left; apply String.ext; rw [hd, h1]
    · right; apply String.ext; rw [hd, h1]

theorem eq_ignore_n {s : String} (h : eq_ignore_ascii_case s "n" = true) :
    s = "n" ∨ s = "N" := by
  unfold eq_ignore_ascii_case at h
  have h' : s.data.map asciiLower = ['n'] := by
    have h2 := eq_of_beq h
    rw [h2]; decide
  match hd : s.data with
  | [] => rw [hd] at h'; simp at h'
  | c :: c2 :: t2 => rw [hd] at h'; simp at h'
  | [c] =>
    rw [hd] at h'
    simp only [List.map_cons, List.map_nil, List.cons.injEq, and_true] at h'
    rcases asciiLower_eq_n h' with h1 | h1
    · left; apply String.ext; rw [hd, h1]
    · right; apply String.ext; rw [hd, h1]

theorem tfAccept_eq_true {s : String} (h : tfAccept s = true) :
    s = "y" ∨ s = "Y" ∨ s = "n" ∨ s = "N" ∨ s = "" := by
  unfold tfAccept at h
  simp only [Bool.or_eq_true] at h
  rcases h with (hy | hn) | he
  · rcases eq_ignore_y hy with h1 | h1 <;> simp [h1]
  · rcases eq_ignore_n hn with h1 | h1 <;> simp [h1]
  · have hd : s.data = [] := by simpa using he
    have : s = "" := by apply String.ext; rw [hd]
    simp [this]

theorem tfFinalMatch_of_accept {s : String} (d : Bool) (h : tfAccept s = true) :
    tfFinalMatch s d =
      (if eq_ignore_ascii_case s "y" = true then true
       else if eq_ignore_ascii_case s "n" = true then false else d) := by
  rcases tfAccept_eq_true h with h1 | h1 | h1 | h1 | h1 <;> subst h1 <;>
    cases d <;> rfl


theorem tfLoop_ok_accept (p : String) (c : Option Choice) :
    ∀ (rs : List (Option String)) (fs : List Bool) (input : String),
      (tfLoop p c fs rs).2 = Except.ok input → tfAccept input = true := by
  intro rs
  induction rs with
  | nil =>
    intro fs input h
    cases fs with
    | nil => simp [tfLoop] at h; rw [← h]; decide
    | cons b t =>
      cases b with
      | false => simp [tfLoop] at h
      | true => simp [tfLoop] at h; rw [← h]; decide
  | cons r rest ih =>
    intro fs input h
    cases r with
    | none =>
      cases fs with
      | nil => simp [tfLoop] at h
      | cons b t =>
        cases b with
        | false => simp [tfLoop] at h
        | true => simp [tfLoop] at h
    | some line =>
      by_cases ha : tfAccept (trim line) = true
      · cases fs with
        | nil => simp [tfLoop, ha] at h; rw [← h]; exact ha
        | cons b t =>
          cases b with
          | false => simp [tfLoop] at h
          | true => simp [tfLoop, ha] at h; rw [← h]; exact ha
      · cases fs with
        | nil =>
          simp [tfLoop, ha] at h
          exact ih _ _ h
        | cons b t =>
          cases b with
          | false => simp [tfLoop] at h
          | true =>
            simp [tfLoop, ha] at h
            exact ih _ _ h

theorem tfLoop_run (p : String) (c : Option Choice) (pre : List String)
    (line : String) (rest : List String)
    (hpre : ∀ l ∈ pre, tfAccept (trim l) = false)
    (hline : tfAccept (trim line) = true) :
    tfLoop p c [] ((pre ++ line :: rest).map Option.some) =
      (tfTrace p c (pre ++ [line]), Except.ok (trim line)) := by
  induction pre with
  | nil => simp [tfLoop, tfTrace, hline]
  | cons a t ih =>
    have ha : tfAccept (trim a) = false := hpre a (by simp)
    have ht : ∀ l ∈ t, tfAccept (trim l) = false := fun l hl => hpre l (by simp [hl])
    have ih' := ih ht
    simp only [List.map_append, List.map_cons] at ih'
    simp [tfLoop, tfTrace, ha, ih']

theorem readLines_tfTrace (p : String) (c : Option Choice) (ls : List String) :
    readLines (tfTrace p c ls) = ls := by
  induction ls with
  | nil => rfl
  | cons a t ih => simp [tfTrace, readLines] at ih ⊢; exact ih

theorem countWrites_tfTrace (p : String) (c : Option Choice) (ls : List String) :
    countWrites (tfTrace p c ls) = ls.length := by
  induction ls with
  | nil => rfl
  | cons a t ih => simp [tfTrace, countWrites] at ih ⊢; exact ih

theorem tfLoop_head (p : String) (c : Option Choice) (fs : List Bool)
    (rs : List (Option String)) :
    (tfLoop p c fs rs).1.head? =
      Option.some (Event.write (renderBoolPrompt p c)) := by
  cases fs with
  | nil =>
    cases rs with
    | nil => simp [tfLoop]
    | cons r t =>
      cases r with
      | none => simp [tfLoop]
      | some line =>
        by_cases ha : tfAccept (trim line) = true <;> simp [tfLoop, ha]
  | cons b t =>
    cases b with
    | false => simp [tfLoop]
    | true =>
      cases rs with
      | nil => simp [tfLoop]
      | cons r t2 =>
        cases r with
        | none => simp [tfLoop]
        | some line =>
          by_cases ha : tfAccept (trim line) = true <;> simp [tfLoop, ha]

theorem tfLoop_wf (p : String) (c : Option Choice) :
    ∀ (rs : List (Option String)) (fs : List Bool),
      wfTrace (tfLoop p c fs rs).1 = true := by
  intro rs
  induction rs with
  | nil =>
    intro fs
    cases fs with
    | nil => simp [tfLoop, wfTrace]
    | cons b t => cases b <;> simp [tfLoop, wfTrace]
  | cons r rest ih =>
    intro fs
    cases r with
    | none =>
      cases fs with
      | nil => simp [tfLoop, wfTrace]
      | cons b t => cases b <;> simp [tfLoop, wfTrace]
    | some line =>
      by_cases ha : tfAccept (trim line) = true
      · cases fs with
        | nil => simp [tfLoop, ha, wfTrace]
        | cons b t => cases b <;> simp [tfLoop, ha, wfTrace]
      · cases fs with
        | nil =>
          simp only [tfLoop, ha]
          simp only [Bool.false_eq_true, if_false, List.cons_append,
            List.nil_append, wfTrace, List.tail_nil]
          exact ih []
        | cons b t =>
          cases b with
          | false => simp [tfLoop, wfTrace]
          | true =>
            simp only [tfLoop, ha]
            simp only [Bool.false_eq_true, if_false, List.cons_append,
              List.nil_append, wfTrace, List.tail_cons]
            exact ih t

theorem tfLoop_snd_ext (p₁ p₂ : String) (c₁ c₂ : Option Choice) :
    ∀ (rs : List (Option String)) (fs : List Bool),
      (tfLoop p₁ c₁ fs rs).2 = (tfLoop p₂ c₂ fs rs).2 := by
  intro rs
  induction rs with
  | nil =>
    intro fs
    cases fs with
    | nil => simp [tfLoop]
    | cons b t => cases b <;> simp [tfLoop]
  | cons r rest ih =>
    intro fs
    cases r with
    | none =>
      cases fs with
      | nil => simp [tfLoop]
      | cons b t => cases b <;> simp [tfLoop]
    | some line =>
      by_cases ha : tfAccept (trim line) = true
      · cases fs with
        | nil => simp [tfLoop, ha]
        | cons b t => cases b <;> simp [tfLoop, ha]
      · cases fs with
        | nil => simp only [tfLoop, ha]; simp [ih []]
        | cons b t =>
          cases b with
          | false => simp [tfLoop]
          | true => simp only [tfLoop, ha]; simp [ih t]

/-! ## Claim theorems -/

/-- Claim C1: for every sequence of input lines, `prompt_tf_default`
returns `true` when the first line whose trimmed content is accepted
equals `"y"` case-insensitively, `false` when it equals `"n"`
case-insensitively, and the caller-supplied default when it is empty
after trimming; every earlier (rejected) line only causes another
write-flush-read round instead of a return. -/
theorem prompt_tf_default_first_accepted (p : String) (c : Option Choice)
    (d : Bool) (pre : List String) (line : String) (rest : List String)
    (hpre : ∀ l ∈ pre, tfAccept (trim l) = false)
    (hline : tfAccept (trim line) = true) :
    (prompt_tf_default p c d [] ((pre ++ line :: rest).map Option.some)).2 =
      Except.ok (if eq_ignore_ascii_case (trim line) "y" = true then true
        else if eq_ignore_ascii_case (trim line) "n" = true then false else d)
    ∧ countReads
        (prompt_tf_default p c d [] ((pre ++ line :: rest).map Option.some)).1 =
        pre.length + 1 := by
  have hrun := tfLoop_run p c pre line rest hpre hline
  simp only [List.map_append, List.map_cons] at hrun
  constructor
  · simp [prompt_tf_default, hrun, Except.map, tfFinalMatch_of_accept d hline]
  · simp [prompt_tf_default, hrun, countReads, readLines_tfTrace]

/-- Witness for C1 at the spec's example: inputs `["x", "q", "Y"]` give
`true` after two rejected rounds. -/
theorem prompt_tf_default_first_accepted_witness :
    (∀ l ∈ ["x", "q"], tfAccept (trim l) = false) ∧ tfAccept (trim "Y") = true ∧
      ((prompt_tf_default "p" Option.none false []
          ((["x", "q"] ++ "Y" :: []).map Option.some)).2 =
        Except.ok (if eq_ignore_ascii_case (trim "Y") "y" = true then true
          else if eq_ignore_ascii_case (trim "Y") "n" = true then false
          else false)
      ∧ countReads
          (prompt_tf_default "p" Option.none false []
            ((["x", "q"] ++ "Y" :: []).map Option.some)).1 =
          ["x", "q"].length + 1) :=
  ⟨by decide, by decide,
    prompt_tf_default_first_accepted "p" Option.none false ["x", "q"] "Y" []
      (by decide) (by decide)⟩

/-- Claim C2: `prompt_selection` returns the caller-supplied default
byte-for-byte (never trimmed) when the read line is empty after trimming,
and otherwise the trimmed read line; the result is never validated
against the choices text (it does not depend on it at all). -/
theorem prompt_selection_result (p l : String) (c : Option Choice)
    (d line : String) (rest : List (Option String)) :
    (prompt_selection p l c d [] (Option.some line :: rest)).2 =
      Except.ok (if (trim line).data.isEmpty then d else trim line)
    ∧ ∀ choices,
        (prompt_selection p choices c d [] (Option.some line :: rest)).2 =
          (prompt_selection p l c d [] (Option.some line :: rest)).2 := by
  constructor
  · simp [prompt_selection]
  · intro choices; simp [prompt_selection]

/-- Claim C3: the reading loop hands a value to the final match only when
the trimmed input is accepted (case-insensitive `y`/`n` or empty); hence
the final match's fallback branch returning the default is reached only
for the empty input and is unreachable for unrecognized non-empty
content. -/
theorem tfLoop_exit_only_accepted (p : String) (c : Option Choice)
    (fs : List Bool) (rs : List (Option String)) (input : String)
    (h : (tfLoop p c fs rs).2 = Except.ok input) :
    tfAccept input = true ∧
      (input ≠ "Y" → input ≠ "y" → input ≠ "N" → input ≠ "n" → input = "") := by
  have ha := tfLoop_ok_accept p c rs fs input h
  refine ⟨ha, fun h1 h2 h3 h4 => ?_⟩
  rcases tfAccept_eq_true ha with h5 | h5 | h5 | h5 | h5
  · exact absurd h5 h2
  · exact absurd h5 h1
  · exact absurd h5 h4
  · exact absurd h5 h3
  · exact h5

/-- Witness for C3: a run whose second line is accepted as empty. -/
theorem tfLoop_exit_only_accepted_witness :
    (tfLoop "" Option.none [] [Option.some "k", Option.some ""]).2 =
        Except.ok "" ∧
      (tfAccept "" = true ∧
        ("" ≠ "Y" → "" ≠ "y" → "" ≠ "N" → "" ≠ "n" → ("" : String) = "")) :=
  ⟨by decide,
    tfLoop_exit_only_accepted "" Option.none [] [Option.some "k", Option.some ""]
      "" (by decide)⟩

/-- Claim C4: `prompt_tf_default` returns only after consuming a line
whose trimmed content is accepted: the consumed lines are exactly the
rejected prefix followed by the first accepted line, and the prompt is
written once per consumed line, so the number of re-renders equals the
number of rejected lines. -/
theorem prompt_tf_default_trace (p : String) (c : Option Choice) (d : Bool)
    (pre : List String) (line : String) (rest : List String)
    (hpre : ∀ l ∈ pre, tfAccept (trim l) = false)
    (hline : tfAccept (trim line) = true) :
    (prompt_tf_default p c d [] ((pre ++ line :: rest).map Option.some)).1 =
      tfTrace p c (pre ++ [line])
    ∧ readLines
        (prompt_tf_default p c d [] ((pre ++ line :: rest).map Option.some)).1 =
        pre ++ [line]
    ∧ countWrites
        (prompt_tf_default p c d [] ((pre ++ line :: rest).map Option.some)).1 =
        pre.length + 1 := by
  have hrun := tfLoop_run p c pre line rest hpre hline
  simp only [List.map_append, List.map_cons] at hrun
  refine ⟨?_, ?_, ?_⟩
  · simp [prompt_tf_default, hrun]
  · simp [prompt_tf_default, hrun, readLines_tfTrace]
  · simp [prompt_tf_default, hrun, countWrites_tfTrace]

/-- Witness for C4: one rejected line before an accepted `"n"`, with a
further never-consumed line behind it. -/
theorem prompt_tf_default_trace_witness :
    (∀ l ∈ ["x"], tfAccept (trim l) = false) ∧ tfAccept (trim "n") = true ∧
      ((prompt_tf_default "p" Option.none true []
          ((["x"] ++ "n" :: ["z"]).map Option.some)).1 =
        tfTrace "p" Option.none (["x"] ++ ["n"])
      ∧ readLines
          (prompt_tf_default "p" Option.none true []
            ((["x"] ++ "n" :: ["z"]).map Option.some)).1 = ["x"] ++ ["n"]
      ∧ countWrites
          (prompt_tf_default "p" Option.none true []
            ((["x"] ++ "n" :: ["z"]).map Option.some)).1 = ["x"].length + 1) :=
  ⟨by decide, by decide,
    prompt_tf_default_trace "p" Option.none true ["x"] "n" ["z"]
      (by decide) (by decide)⟩

/-- Claim C5: `prompt_selection` composes its output line as
`"<prompt>: [<choices>]: "`; only the choices text receives styling while
the prompt text stays plain, with the style absent both are trimmed, and
on the spec's example the plain rendering is exactly
`"Choose: [(a)pples, (D)efault]: "`. -/
theorem prompt_selection_output_composition (p l d : String)
    (sc : Option Choice) (c : Choice) (fs : List Bool)
    (rs : List (Option String)) :
    renderSelectionPrompt p l (Option.some c) =
      [Segment.plain (p ++ ": ["), Segment.styled l c, Segment.plain "]: "]
    ∧ renderSelectionPrompt p l Option.none =
      [Segment.plain (trim p ++ ": [" ++ trim l ++ "]: ")]
    ∧ (prompt_selection p l sc d fs rs).1.head? =
        Option.some (Event.write (renderSelectionPrompt p l sc))
    ∧ renderSegs
        (renderSelectionPrompt "Choose" "(a)pples, (D)efault" Option.none) =
        "Choose: [(a)pples, (D)efault]: " := by
  refine ⟨rfl, rfl, ?_, by decide⟩
  cases fs with
  | nil =>
    cases rs with
    | nil => simp [prompt_selection]
    | cons r t => cases r <;> simp [prompt_selection]
  | cons b t =>
    cases b with
    | false => simp [prompt_selection]
    | true =>
      cases rs with
      | nil => simp [prompt_selection]
      | cons r t2 => cases r <;> simp [prompt_selection]

/-- Claim C6: `prompt_selection` performs exactly one read per call,
whatever the line's content: the whole run is a single write-flush-read
round and the rest of the input is untouched. -/
theorem prompt_selection_single_read (p l : String) (c : Option Choice)
    (d line : String) (rest : List (Option String)) :
    prompt_selection p l c d [] (Option.some line :: rest) =
      ([Event.write (renderSelectionPrompt p l c), Event.flush,
        Event.read line],
       Except.ok (if (trim line).data.isEmpty then d else trim line))
    ∧ countReads
        (prompt_selection p l c d [] (Option.some line :: rest)).1 = 1 := by
  constructor
  · simp [prompt_selection]
  · simp [prompt_selection, countReads, readLines]

/-- Claim C7: in `prompt_tf_default`, a present style is applied to the
entire untrimmed prompt text, an absent style renders the trimmed prompt
unstyled; the rendered prompt is the first event of every run's trace. -/
theorem prompt_tf_default_render (p : String) (c : Choice)
    (colored : Option Choice) (d : Bool) (fs : List Bool)
    (rs : List (Option String)) :
    renderBoolPrompt p (Option.some c) = [Segment.styled p c]
    ∧ renderBoolPrompt p Option.none = [Segment.plain (trim p)]
    ∧ renderSegs (renderBoolPrompt p (Option.some c)) =
        "\x1b[" ++ toString (styleCode c) ++ "m" ++ p ++ "\x1b[0m"
    ∧ (prompt_tf_default p colored d fs rs).1.head? =
        Option.some (Event.write (renderBoolPrompt p colored)) := by
  refine ⟨rfl, rfl, ?_, ?_⟩
  · simp [renderSegs, renderSeg, String.append_empty]
  · simp only [prompt_tf_default]
    exact tfLoop_head p colored fs rs

/-- Claim C8: a flush failure or a read failure is fatal for both
operations: the run stops immediately with the corresponding panic — no
retry, no further events — and these two are the only error kinds either
operation can produce. -/
theorem io_failures_fatal (p l : String) (c : Option Choice) (d : Bool)
    (ds : String) (fs : List Bool) (rs : List (Option String)) :
    prompt_tf_default p c d (false :: fs) rs =
      ([Event.write (renderBoolPrompt p c)], Except.error PanicMsg.flushFailed)
    ∧ prompt_tf_default p c d (true :: fs) (Option.none :: rs) =
      ([Event.write (renderBoolPrompt p c), Event.flush],
       Except.error PanicMsg.readFailed)
    ∧ prompt_selection p l c ds (false :: fs) rs =
      ([Event.write (renderSelectionPrompt p l c)],
       Except.error PanicMsg.flushFailed)
    ∧ prompt_selection p l c ds (true :: fs) (Option.none :: rs) =
      ([Event.write (renderSelectionPrompt p l c), Event.flush],
       Except.error PanicMsg.readFailed)
    ∧ ∀ e : PanicMsg, e = PanicMsg.flushFailed ∨ e = PanicMsg.readFailed := by
  refine ⟨?_, ?_, ?_, ?_, fun e => by cases e <;> simp⟩
  · simp [prompt_tf_default, tfLoop, Except.map]
  · simp [prompt_tf_default, tfLoop, Except.map]
  · simp [prompt_selection]
  · simp [prompt_selection]

/-- Claim C9: every blocking read is strictly preceded by writing the
prompt and then flushing: the trace of either operation is a sequence of
write-flush-read rounds, possibly cut short after a write or a flush by a
failure. -/
theorem every_read_preceded_by_write_flush (p l : String) (c : Option Choice)
    (d : Bool) (ds : String) (fs : List Bool) (rs : List (Option String)) :
    wfTrace (prompt_tf_default p c d fs rs).1 = true
    ∧ wfTrace (prompt_selection p l c ds fs rs).1 = true := by
  constructor
  · simp only [prompt_tf_default]
    exact tfLoop_wf p c rs fs
  · cases fs with
    | nil =>
      cases rs with
      | nil => simp [prompt_selection, wfTrace]
      | cons r t => cases r <;> simp [prompt_selection, wfTrace]
    | cons b t =>
      cases b with
      | false => simp [prompt_selection, wfTrace]
      | true =>
        cases rs with
        | nil => simp [prompt_selection, wfTrace]
        | cons r t2 => cases r <;> simp [prompt_selection, wfTrace]

/-- Claim C10: the returned value of each operation depends only on the
sequence of input lines (and I/O outcomes) and the default argument,
never on the prompt text, the choices text, or the style. -/
theorem result_presentation_independent (p₁ p₂ l₁ l₂ : String)
    (c₁ c₂ : Option Choice) (d : Bool) (ds : String) (fs : List Bool)
    (rs : List (Option String)) :
    (prompt_tf_default p₁ c₁ d fs rs).2 = (prompt_tf_default p₂ c₂ d fs rs).2
    ∧ (prompt_selection p₁ l₁ c₁ ds fs rs).2 =
        (prompt_selection p₂ l₂ c₂ ds fs rs).2 := by
  constructor
  · simp only [prompt_tf_default]
    rw [tfLoop_snd_ext p₁ p₂ c₁ c₂ rs fs]
  · cases fs with
    | nil =>
      cases rs with
      | nil => simp [prompt_selection]
      | cons r t => cases r <;> simp [prompt_selection]
    | cons b t =>
      cases b with
      | false => simp [prompt_selection]
      | true =>
        cases rs with
        | nil => simp [prompt_selection]
        | cons r t2 => cases r <;> simp [prompt_selection]

end Cumaea
